import Mathlib

/-!
Verification of `FinQ4Cn-mcp-server` (files `mcp-server/utils/stocks_common_metrics.py`
and `mcp-server/fs_server.py`) against its natural-language specification.

The Python code is shallowly embedded:
* pandas `DataFrame` rows become association lists `List (String × Val)` (a row is a
  finite map from column names to cell values, in column order);
* `DataFrame.rename(columns=m)` becomes `renameKeys m` (each key is replaced by its
  image under the mapping when present, and kept unchanged otherwise — exactly the
  pandas semantics: unmapped columns are preserved, not dropped);
* calendar dates are day ordinals (`Nat`); `pd.date_range(start, end, freq)` becomes
  `dateRange start end step`, enumerating `start, start+step, …` up to `end` for the
  fixed-stride frequencies ("D" = 1 day, "W" = 7 days); the variable-stride monthly /
  quarterly / yearly frequencies share every property used here (ascending enumeration,
  contained in `[start, end]`, empty when `start > end`);
* external `akshare` calls become explicit fetch oracles passed as arguments; a Python
  exception raised by a fetch is `Except.error`;
* functions that in Python may raise before reaching the external source return
  `List String × Except String α`: the first component is the list of external calls
  actually attempted, the second the returned value or the raised error.
-/

/-- A cell value of a tabular row: the sources hold strings (codes, names) and
numbers (balances, volumes, dates). -/
inductive Val where
  | str (s : String)
  | num (n : Nat)
deriving DecidableEq, Repr

/-- A raw tabular row: column name ↦ value, in column order (a pandas row). -/
abbrev Row : Type := List (String × Val)

/-- How `DataFrame.rename` transforms one column name: replaced by its image under the
mapping when the mapping contains it, kept unchanged otherwise. -/
def rnKey (m : List (String × String)) (k : String) : String :=
  (m.lookup k).getD k

/-- `DataFrame.rename(columns=m)` on one row: every key is renamed by `rnKey`, values
are untouched, no column is added or removed. -/
def renameKeys (m : List (String × String)) (row : Row) : Row :=
  row.map (fun kv => (rnKey m kv.1, kv.2))

/-- The `column_mapping` dictionary of `get_stock_margin_detail`
(`stocks_common_metrics.py` lines 236–246). -/
def marginColumnMapping : List (String × String) :=
  [("信用交易日期", "trading_date"),
   ("标的证券代码", "target_security_code"),
   ("标的证券简称", "target_security_name"),
   ("融资余额", "margin_balance"),
   ("融资买入额", "margin_buy_amount"),
   ("融资偿还额", "margin_repayment"),
   ("融券余量", "short_selling_balance"),
   ("融券卖出量", "short_selling_volume"),
   ("融券偿还量", "short_selling_repayment")]

/-- The column names of the `ak.stock_margin_detail_sse` table, in order (the raw
schema the mapping above translates). -/
def sseColumns : List String :=
  ["信用交易日期", "标的证券代码", "标的证券简称", "融资余额", "融资买入额",
   "融资偿还额", "融券余量", "融券卖出量", "融券偿还量"]

/-- `pd.date_range(start=start_date, end=end_date, freq=freq)` for a fixed stride:
the ascending dates `start, start+step, …` that are `≤ end_`; empty when
`start > end_`.  `step = 1` is freq "D", `step = 7` freq "W". -/
def dateRange (start end_ step : Nat) : List Nat :=
  if end_ < start then []
  else (List.range ((end_ - start) / max step 1 + 1)).map (fun i => start + i * max step 1)

/-- The row filter `stock_margin_detail_sse_df['标的证券代码'] == stock_code`
(line 263–265). -/
def matchesCode (stock_code : String) (row : Row) : Bool :=
  decide (row.lookup "标的证券代码" = some (Val.str stock_code))

/-- The body of one successful loop iteration of `get_stock_margin_detail`
(lines 258–276): skip when the fetched table is empty, filter to the requested
security code, skip when the filtered table is empty, otherwise rename the columns.
The result is the block of rows this date contributes to the accumulator. -/
def processDay (stock_code : String) (rows : List Row) : List Row :=
  if rows.isEmpty then []
  else
    let filtered := rows.filter (matchesCode stock_code)
    if filtered.isEmpty then []
    else filtered.map (renameKeys marginColumnMapping)

/-- One date of the loop of `get_stock_margin_detail` (lines 249–280): the fetch
`ak.stock_margin_detail_sse(date=d)` may raise (`Except.error`), in which case the
`except` clause logs and contributes nothing; otherwise the day is processed by
`processDay`. -/
def dayResult (fetch : Nat → Except String (List Row)) (stock_code : String) (d : Nat) :
    List Row :=
  match fetch d with
  | .error _ => []
  | .ok rows => processDay stock_code rows

/-- `get_stock_margin_detail(stock_code, start_date, end_date, freq)`
(`stocks_common_metrics.py` lines 204–285): iterate `pd.date_range`, per date fetch /
filter / rename, and accumulate with `pd.concat` (append); finally
`to_dict(orient="records")` returns the accumulated rows.  The function is total:
every per-date exception is caught inside the loop. -/
def getStockMarginDetail (fetch : Nat → Except String (List Row)) (stock_code : String)
    (start_date end_date step : Nat) : List Row :=
  (dateRange start_date end_date step).foldl
    (fun acc d => acc ++ dayResult fetch stock_code d) []

/-- The trading date carried by a translated margin record (`0` when absent). -/
def tdNat (r : Row) : Nat :=
  match r.lookup "trading_date" with
  | some (Val.num n) => n
  | _ => 0

theorem foldl_append_flatten {α β : Type} (f : α → List β) :
    ∀ (l : List α) (acc : List β),
      l.foldl (fun a x => a ++ f x) acc = acc ++ (l.map f).flatten := by
  intro l
  induction l with
  | nil => intro acc; simp
  | cons x xs ih => intro acc; simp [ih]

theorem getStockMarginDetail_eq (fetch : Nat → Except String (List Row))
    (stock_code : String) (s e st : Nat) :
    getStockMarginDetail fetch stock_code s e st
      = ((dateRange s e st).map (dayResult fetch stock_code)).flatten := by
  unfold getStockMarginDetail
  simpa using foldl_append_flatten (dayResult fetch stock_code) (dateRange s e st) []

theorem lookup_renameKeys (m : List (String × String)) (row : Row) (s t : String)
    (hst : m.lookup s = some t)
    (hu : ∀ kv ∈ row, rnKey m kv.1 = t → kv.1 = s) :
    (renameKeys m row).lookup t = row.lookup s := by
  induction row with
  | nil => rfl
  | cons kv rest ih =>
    obtain ⟨k, v⟩ := kv
    by_cases hk : k = s
    · subst hk
      have h1 : rnKey m k = t := by simp [rnKey, hst]
      simp [renameKeys, List.lookup_cons, h1]
    · have h1 : rnKey m k ≠ t := by
        intro h
        exact hk (hu (k, v) (List.mem_cons_self _ _) h)
      have h2 : (t == rnKey m k) = false := by
        simp [beq_iff_eq]
        exact fun h => h1 h.symm
      have h3 : (s == k) = false := by
        simp [beq_iff_eq]
        exact fun h => hk h.symm
      simp only [renameKeys, List.map_cons, List.lookup_cons, h2, h3]
      exact ih (fun kv hkv h => hu kv (List.mem_cons_of_mem _ hkv) h)

theorem sse_uniq_code :
    ∀ k ∈ sseColumns, rnKey marginColumnMapping k = "target_security_code" →
      k = "标的证券代码" := by decide

theorem sse_uniq_date :
    ∀ k ∈ sseColumns, rnKey marginColumnMapping k = "trading_date" →
      k = "信用交易日期" := by decide

theorem mem_processDay (stock_code : String) (rows : List Row) (x : Row)
    (hx : x ∈ processDay stock_code rows) :
    ∃ r0 ∈ rows, matchesCode stock_code r0 = true ∧
      x = renameKeys marginColumnMapping r0 := by
  unfold processDay at hx
  split at hx
  · exact absurd hx (List.not_mem_nil x)
  · simp only at hx
    split at hx
    · exact absurd hx (List.not_mem_nil x)
    · rw [List.mem_map] at hx
      obtain ⟨r0, hr0, hxeq⟩ := hx
      rw [List.mem_filter] at hr0
      exact ⟨r0, hr0.1, hr0.2, hxeq.symm⟩

theorem mem_dayResult (fetch : Nat → Except String (List Row)) (stock_code : String)
    (d : Nat) (x : Row) (hx : x ∈ dayResult fetch stock_code d) :
    ∃ rows r0, fetch d = .ok rows ∧ r0 ∈ rows ∧ matchesCode stock_code r0 = true ∧
      x = renameKeys marginColumnMapping r0 := by
  unfold dayResult at hx
  cases hfd : fetch d with
  | error msg => rw [hfd] at hx; simp at hx
  | ok rows =>
    rw [hfd] at hx
    obtain ⟨r0, hr0, hm, hxeq⟩ := mem_processDay stock_code rows x hx
    exact ⟨rows, r0, rfl, hr0, hm, hxeq⟩

theorem dateRange_pairwise_lt (s e st : Nat) :
    List.Pairwise (· < ·) (dateRange s e st) := by
  unfold dateRange
  by_cases h : e < s
  · simp [h]
  · simp only [h, if_false]
    rw [List.pairwise_map]
    apply (List.pairwise_lt_range _).imp
    intro i j hij
    have hst : 0 < max st 1 := by positivity
    exact Nat.add_lt_add_left ((Nat.mul_lt_mul_right hst).mpr hij) s

/-- A well-formed `ak.stock_margin_detail_sse` row for trading date `d`, security code
`code` and security name `nm` (the nine documented columns, in order), used to
instantiate the margin-detail theorems on concrete inputs. -/
def mkSseRow (d : Nat) (code nm : String) : Row :=
  [("信用交易日期", Val.num d),
   ("标的证券代码", Val.str code),
   ("标的证券简称", Val.str nm),
   ("融资余额", Val.num 100),
   ("融资买入额", Val.num 10),
   ("融资偿还额", Val.num 5),
   ("融券余量", Val.num 3),
   ("融券卖出量", Val.num 2),
   ("融券偿还量", Val.num 1)]

/-- A concrete fetch oracle that raises on even dates and succeeds on odd dates. -/
def wFetch : Nat → Except String (List Row) := fun d =>
  if d % 2 == 0 then .error "connection reset" else .ok [mkSseRow d "600000" "浦发银行"]

/-- A concrete fetch oracle that succeeds on every date with that date's row. -/
def dFetch : Nat → Except String (List Row) := fun d =>
  .ok [mkSseRow d "600000" "浦发银行"]

theorem wFetch_schema : ∀ d rows, wFetch d = .ok rows →
    ∀ r ∈ rows, r.map Prod.fst = sseColumns := by
  intro d rows h
  unfold wFetch at h
  split at h
  · exact Except.noConfusion h
  · injection h with h2
    subst h2
    intro r hr
    rw [List.mem_singleton] at hr
    subst hr
    rfl

theorem dFetch_schema : ∀ d rows, dFetch d = .ok rows →
    ∀ r ∈ rows, r.map Prod.fst = sseColumns := by
  intro d rows h
  injection h with h2
  subst h2
  intro r hr
  rw [List.mem_singleton] at hr
  subst hr
  rfl

theorem dFetch_date : ∀ d rows, dFetch d = .ok rows →
    ∀ r ∈ rows, r.lookup "信用交易日期" = some (Val.num d) := by
  intro d rows h
  injection h with h2
  subst h2
  intro r hr
  rw [List.mem_singleton] at hr
  subst hr
  simp [mkSseRow, List.lookup_cons]

/-- C1: an exception raised while fetching a single date of the range is caught inside
the loop of `get_stock_margin_detail` and treated as "no data for that date"; the
embedding is total (it returns a `List Row`, never an error), and the result still
contains every record of every date whose fetch succeeded with matching data. -/
theorem margin_error_isolated (fetch : Nat → Except String (List Row))
    (stock_code : String) (s e st d : Nat) (rows : List Row)
    (hd : d ∈ dateRange s e st) (hf : fetch d = .ok rows) :
    ∀ x ∈ processDay stock_code rows, x ∈ getStockMarginDetail fetch stock_code s e st := by
  intro x hx
  rw [getStockMarginDetail_eq, List.mem_flatten]
  refine ⟨dayResult fetch stock_code d, List.mem_map_of_mem _ hd, ?_⟩
  unfold dayResult
  rw [hf]
  exact hx

theorem margin_error_isolated_w :
    renameKeys marginColumnMapping (mkSseRow 3 "600000" "浦发银行")
      ∈ getStockMarginDetail wFetch "600000" 2 5 1 :=
  margin_error_isolated wFetch "600000" 2 5 1 3 [mkSseRow 3 "600000" "浦发银行"]
    (by decide) (by rfl) _ (by decide)

/-- C3: every record returned by `get_stock_margin_detail` has `target_security_code`
equal to the queried `stock_code`: rows are filtered on the raw `标的证券代码` column
and the rename maps that column to `target_security_code` without touching its value.
The hypothesis states that the external table has the documented SSE columns. -/
theorem margin_filter_code (fetch : Nat → Except String (List Row))
    (stock_code : String) (s e st : Nat)
    (hschema : ∀ d rows, fetch d = .ok rows → ∀ r ∈ rows, r.map Prod.fst = sseColumns) :
    ∀ x ∈ getStockMarginDetail fetch stock_code s e st,
      x.lookup "target_security_code" = some (Val.str stock_code) := by
  intro x hx
  rw [getStockMarginDetail_eq, List.mem_flatten] at hx
  obtain ⟨l, hl, hxl⟩ := hx
  rw [List.mem_map] at hl
  obtain ⟨d, hd, rfl⟩ := hl
  obtain ⟨rows, r0, hfd, hr0, hm, hxeq⟩ := mem_dayResult fetch stock_code d x hxl
  subst hxeq
  have hkeys := hschema d rows hfd r0 hr0
  have hu : ∀ kv ∈ r0, rnKey marginColumnMapping kv.1 = "target_security_code" →
      kv.1 = "标的证券代码" := by
    intro kv hkv h
    exact sse_uniq_code kv.1 (hkeys ▸ List.mem_map_of_mem Prod.fst hkv) h
  rw [lookup_renameKeys marginColumnMapping r0 "标的证券代码" "target_security_code"
    (by decide) hu]
  exact of_decide_eq_true hm

theorem margin_filter_code_w :
    List.lookup "target_security_code"
        (renameKeys marginColumnMapping (mkSseRow 3 "600000" "浦发银行"))
      = some (Val.str "600000") :=
  margin_filter_code wFetch "600000" 3 3 1 wFetch_schema _ (by decide)

theorem tdNat_dayResult (fetch : Nat → Except String (List Row)) (stock_code : String)
    (hschema : ∀ d rows, fetch d = .ok rows → ∀ r ∈ rows, r.map Prod.fst = sseColumns)
    (hdate : ∀ d rows, fetch d = .ok rows →
      ∀ r ∈ rows, r.lookup "信用交易日期" = some (Val.num d))
    (d : Nat) : ∀ x ∈ dayResult fetch stock_code d, tdNat x = d := by
  intro x hx
  obtain ⟨rows, r0, hfd, hr0, hm, hxeq⟩ := mem_dayResult fetch stock_code d x hx
  subst hxeq
  have hkeys := hschema d rows hfd r0 hr0
  have hu : ∀ kv ∈ r0, rnKey marginColumnMapping kv.1 = "trading_date" →
      kv.1 = "信用交易日期" := by
    intro kv hkv h
    exact sse_uniq_date kv.1 (hkeys ▸ List.mem_map_of_mem Prod.fst hkv) h
  unfold tdNat
  rw [lookup_renameKeys marginColumnMapping r0 "信用交易日期" "trading_date" (by decide) hu,
    hdate d rows hfd r0 hr0]

/-- C4: the list returned by `get_stock_margin_detail` is the concatenation of the
per-date filtered blocks over the enumerated date range, and (given that the external
table for date `d` carries trading date `d`, with the documented SSE columns) its
records appear in ascending trading-date order. -/
theorem margin_concat_ascending (fetch : Nat → Except String (List Row))
    (stock_code : String) (s e st : Nat)
    (hschema : ∀ d rows, fetch d = .ok rows → ∀ r ∈ rows, r.map Prod.fst = sseColumns)
    (hdate : ∀ d rows, fetch d = .ok rows →
      ∀ r ∈ rows, r.lookup "信用交易日期" = some (Val.num d)) :
    getStockMarginDetail fetch stock_code s e st
        = ((dateRange s e st).map (dayResult fetch stock_code)).flatten
      ∧ List.Pairwise (fun a b => tdNat a ≤ tdNat b)
        (getStockMarginDetail fetch stock_code s e st) := by
  refine ⟨getStockMarginDetail_eq fetch stock_code s e st, ?_⟩
  rw [getStockMarginDetail_eq]
  rw [List.pairwise_flatten]
  constructor
  · intro l hl
    rw [List.mem_map] at hl
    obtain ⟨d, hd, rfl⟩ := hl
    apply List.pairwise_of_forall_mem_list
    intro a ha b hb
    rw [tdNat_dayResult fetch stock_code hschema hdate d a ha,
      tdNat_dayResult fetch stock_code hschema hdate d b hb]
  · rw [List.pairwise_map]
    apply (dateRange_pairwise_lt s e st).imp
    intro d d' hdd' x hx y hy
    rw [tdNat_dayResult fetch stock_code hschema hdate d x hx,
      tdNat_dayResult fetch stock_code hschema hdate d' y hy]
    exact Nat.le_of_lt hdd'

theorem margin_concat_ascending_w :
    getStockMarginDetail dFetch "600000" 3 5 1
        = ((dateRange 3 5 1).map (dayResult dFetch "600000")).flatten
      ∧ List.Pairwise (fun a b => tdNat a ≤ tdNat b)
        (getStockMarginDetail dFetch "600000" 3 5 1) :=
  margin_concat_ascending dFetch "600000" 3 5 1 dFetch_schema dFetch_date

/-- C10: `get_stock_margin_detail` performs no date-format validation of its own: the
embedding is a total function straight from the date-range enumeration (no
`Except`-valued validation step exists before it), and whenever `start_date >
end_date` the enumerated range is empty and the call returns the empty list, for every
fetch oracle and frequency. -/
theorem margin_no_validation_empty_range (fetch : Nat → Except String (List Row))
    (stock_code : String) (st s e : Nat) (h : e < s) :
    dateRange s e st = [] ∧ getStockMarginDetail fetch stock_code s e st = [] := by
  have h1 : dateRange s e st = [] := by unfold dateRange; simp [h]
  refine ⟨h1, ?_⟩
  rw [getStockMarginDetail_eq, h1]
  rfl

theorem margin_no_validation_empty_range_w :
    dateRange 20230110 20230102 1 = []
      ∧ getStockMarginDetail wFetch "600000" 20230110 20230102 1 = [] :=
  margin_no_validation_empty_range wFetch "600000" 1 20230110 20230102 (by decide)

/-- An `ak.stock_margin_detail_sse` row carrying one column (`额外备注列`) that the
`column_mapping` of `get_stock_margin_detail` does not mention, next to the nine
documented ones. -/
def c7Row : Row := mkSseRow 20230103 "600000" "浦发银行" ++ [("额外备注列", Val.str "x")]

/-- A fetch oracle returning `c7Row` for every date. -/
def c7Fetch : Nat → Except String (List Row) := fun _ => .ok [c7Row]

/-- C7: counterexample — `DataFrame.rename` keeps columns that are absent from the
mapping (under their original names); a raw row with the undocumented column
`额外备注列` flows through `get_stock_margin_detail` into the returned record, so
unmapped keys are NOT dropped from the translated row. -/
theorem translate_unmapped_dropped_cex :
    getStockMarginDetail c7Fetch "600000" 20230103 20230103 1
        = [renameKeys marginColumnMapping c7Row]
      ∧ List.lookup "额外备注列" (renameKeys marginColumnMapping c7Row)
        = some (Val.str "x") := by
  constructor
  · decide
  · decide

/-- C7 (amended): the field-translation step renames keys only — the sequence of
values of a translated row is exactly that of the raw row — and a key of the raw row
that is not in the category's mapping is preserved in the translated row under its
original name (not dropped), while a mapped key reappears under its canonical name
with the same value. -/
theorem translate_rename_only (m : List (String × String)) (row : Row) :
    (renameKeys m row).map Prod.snd = row.map Prod.snd
      ∧ (∀ kv ∈ row, m.lookup kv.1 = none → kv ∈ renameKeys m row)
      ∧ (∀ kv ∈ row, ∀ t, m.lookup kv.1 = some t → (t, kv.2) ∈ renameKeys m row) := by
  refine ⟨?_, ?_, ?_⟩
  · simp [renameKeys]
  · rintro ⟨k1, k2⟩ hkv h
    have h' : List.lookup k1 m = none := h
    have h1 : rnKey m k1 = k1 := by unfold rnKey; rw [h']; rfl
    have h2 : (rnKey m k1, k2) ∈ renameKeys m row :=
      List.mem_map_of_mem (fun kv => (rnKey m kv.1, kv.2)) hkv
    rw [h1] at h2
    exact h2
  · rintro ⟨k1, k2⟩ hkv t h
    have h' : List.lookup k1 m = some t := h
    have h1 : rnKey m k1 = t := by unfold rnKey; rw [h']; rfl
    have h2 : (rnKey m k1, k2) ∈ renameKeys m row :=
      List.mem_map_of_mem (fun kv => (rnKey m kv.1, kv.2)) hkv
    rw [h1] at h2
    exact h2

theorem translate_rename_only_w :
    (renameKeys marginColumnMapping c7Row).map Prod.snd = c7Row.map Prod.snd
      ∧ ("额外备注列", Val.str "x") ∈ renameKeys marginColumnMapping c7Row
      ∧ ("trading_date", Val.num 20230103) ∈ renameKeys marginColumnMapping c7Row := by
  have h := translate_rename_only marginColumnMapping c7Row
  exact ⟨h.1,
    h.2.1 ("额外备注列", Val.str "x") (by decide) (by decide),
    h.2.2 ("信用交易日期", Val.num 20230103) (by decide) "trading_date" (by decide)⟩

/-- Modelled from the spec: `DateValidator.validate_date_format` is defined in
`mcp-server/utils/modules.py`, which is not among the provided source files; per the
spec a date is valid iff it matches `YYYYMMDD`, i.e. is exactly 8 digits. -/
def validate_date_format (s : String) : Bool :=
  s.length == 8 && s.toList.all Char.isDigit

/-- The numeric reading of a digit string (an 8-digit `YYYYMMDD` string as a `Nat`);
numeric order on these values is chronological order. -/
def dateVal (s : String) : Nat :=
  s.toList.foldl (fun a c => a * 10 + (c.toNat - 48)) 0

/-- A raw row of the `ak.stock_zh_a_hist` table, with its native column names
(the keys renamed by `column_mapping` on lines 110–123).  The date is a day number,
prices and percentage columns are scaled integers. -/
structure RawPriceRow where
  «日期» : Nat
  «股票代码» : String
  «开盘» : Int
  «收盘» : Int
  «最高» : Int
  «最低» : Int
  «成交量» : Nat
  «成交额» : Int
  «振幅» : Int
  «涨跌幅» : Int
  «涨跌额» : Int
  «换手率» : Int
deriving DecidableEq, Repr

/-- The validated price record produced per row (`StockPricedata(**row).model_dump()`,
line 127), with the canonical English field names. -/
structure StockPricedata where
  date : Nat
  stock_code : String
  «open» : Int
  close : Int
  high : Int
  low : Int
  volume : Nat
  turnover : Int
  amplitude : Int
  change_rate : Int
  change_amount : Int
  turnover_rate : Int
deriving DecidableEq, Repr

/-- The rename (lines 110–124) followed by the per-row model construction (line 127):
each canonical field takes the value of its mapped native column, unchanged. -/
def StockPricedata.ofRaw (r : RawPriceRow) : StockPricedata :=
  ⟨r.«日期», r.«股票代码», r.«开盘», r.«收盘», r.«最高», r.«最低», r.«成交量», r.«成交额», r.«振幅»,
   r.«涨跌幅», r.«涨跌额», r.«换手率»⟩

/-- `get_historical_stockprice_data(stock_code, start_date, end_date, period, adjust)`
(`stocks_common_metrics.py` lines 71–129): validate both dates (raising the
`ValueError` of line 103 before any external call when either fails), then call
`ak.stock_zh_a_hist` (the fetch oracle), rename the columns and build one
`StockPricedata` per row.  The first component lists the external calls attempted. -/
def getHistoricalStockpriceData
    (fetch : String → String → String → String → String → List RawPriceRow)
    (stock_code start_date end_date period adjust : String) :
    List String × Except String (List StockPricedata) :=
  if !validate_date_format start_date || !validate_date_format end_date then
    ([], .error ("日期格式错误，应为 YYYYMMDD，实际输入：" ++ start_date ++ " 或 " ++ end_date))
  else
    (["ak.stock_zh_a_hist"],
      .ok ((fetch stock_code period start_date end_date adjust).map StockPricedata.ofRaw))

/-- C2: when `start_date` or `end_date` is not an 8-digit `YYYYMMDD` string,
`get_historical_stockprice_data` raises the input-validation `ValueError` and the list
of attempted external calls is empty — no external call precedes the validation.
(`DateValidator` is modelled from the spec; see `validate_date_format`.) -/
theorem price_validates_before_fetch
    (fetch : String → String → String → String → String → List RawPriceRow)
    (stock_code start_date end_date period adjust : String)
    (h : validate_date_format start_date = false ∨ validate_date_format end_date = false) :
    (getHistoricalStockpriceData fetch stock_code start_date end_date period adjust).1 = []
      ∧ (getHistoricalStockpriceData fetch stock_code start_date end_date period adjust).2
        = .error ("日期格式错误，应为 YYYYMMDD，实际输入：" ++ start_date ++ " 或 " ++ end_date) := by
  unfold getHistoricalStockpriceData
  rcases h with h | h <;> simp [h]

/-- A constant price fetch oracle used to instantiate the theorems. -/
def pFetch : String → String → String → String → String → List RawPriceRow :=
  fun _ _ _ _ _ =>
    [⟨20230104, "600000", 700, 710, 720, 690, 1000, 70000, 40, 15, 10, 5⟩,
     ⟨20230105, "600000", 710, 705, 715, 700, 900, 63000, 20, -7, -5, 4⟩]

theorem price_validates_before_fetch_w :
    (getHistoricalStockpriceData pFetch "600000" "2023-01-01" "20230110" "daily" "").1 = []
      ∧ (getHistoricalStockpriceData pFetch "600000" "2023-01-01" "20230110" "daily" "").2
        = .error ("日期格式错误，应为 YYYYMMDD，实际输入：" ++ "2023-01-01" ++ " 或 " ++ "20230110") :=
  price_validates_before_fetch pFetch "600000" "2023-01-01" "20230110" "daily" ""
    (Or.inl (by decide))

/-- C8: for valid 8-digit date pairs with `start_date ≤ end_date`, given that the
external table honours its contract (dates inside the requested range, ascending, and
`最高 ≥ 最低` per row), every returned record has its date within
`[start_date, end_date]`, satisfies `high ≥ low`, and the records are sorted ascending
by date — the translation alters no value and preserves the row order. -/
theorem price_range_sorted_high_low
    (fetch : String → String → String → String → String → List RawPriceRow)
    (stock_code start_date end_date period adjust : String)
    (hvs : validate_date_format start_date = true)
    (hve : validate_date_format end_date = true)
    (hle : dateVal start_date ≤ dateVal end_date)
    (hrange : ∀ r ∈ fetch stock_code period start_date end_date adjust,
      dateVal start_date ≤ r.«日期» ∧ r.«日期» ≤ dateVal end_date)
    (hsort : List.Pairwise (fun a b => a.«日期» ≤ b.«日期»)
      (fetch stock_code period start_date end_date adjust))
    (hhl : ∀ r ∈ fetch stock_code period start_date end_date adjust, r.«最低» ≤ r.«最高») :
    (getHistoricalStockpriceData fetch stock_code start_date end_date period adjust).2
        = .ok ((fetch stock_code period start_date end_date adjust).map StockPricedata.ofRaw)
      ∧ (∀ b ∈ (fetch stock_code period start_date end_date adjust).map StockPricedata.ofRaw,
          dateVal start_date ≤ b.date ∧ b.date ≤ dateVal end_date ∧ b.low ≤ b.high)
      ∧ List.Pairwise (fun a b => a.date ≤ b.date)
        ((fetch stock_code period start_date end_date adjust).map StockPricedata.ofRaw) := by
  refine ⟨?_, ?_, ?_⟩
  · unfold getHistoricalStockpriceData
    simp [hvs, hve]
  · intro b hb
    rw [List.mem_map] at hb
    obtain ⟨r, hr, rfl⟩ := hb
    exact ⟨(hrange r hr).1, (hrange r hr).2, hhl r hr⟩
  · rw [List.pairwise_map]
    exact hsort

theorem price_range_sorted_high_low_w :
    (getHistoricalStockpriceData pFetch "600000" "20230101" "20230110" "daily" "").2
        = .ok ((pFetch "600000" "daily" "20230101" "20230110" "").map StockPricedata.ofRaw)
      ∧ (∀ b ∈ (pFetch "600000" "daily" "20230101" "20230110" "").map StockPricedata.ofRaw,
          dateVal "20230101" ≤ b.date ∧ b.date ≤ dateVal "20230110" ∧ b.low ≤ b.high)
      ∧ List.Pairwise (fun a b => a.date ≤ b.date)
        ((pFetch "600000" "daily" "20230101" "20230110" "").map StockPricedata.ofRaw) :=
  price_range_sorted_high_low pFetch "600000" "20230101" "20230110" "daily" ""
    (by decide) (by decide) (by decide) (by decide) (by decide) (by decide)

/-- One atom of the regular-expression fragment modelled here: a literal character or
the metacharacter `.`.  `get_stock_code` feeds the caller's `name` to `re.search`;
the fragment with literals, `.` and `*` covers the claims (plain substring patterns,
the empty pattern, and the malformed dangling `*`). -/
inductive RAtom where
  | lit (c : Char)
  | dot
deriving DecidableEq, Repr

/-- One pattern character as an atom (`.` is the any-character atom). -/
def mkAtom (c : Char) : RAtom := if c = '.' then RAtom.dot else RAtom.lit c

/-- Compile a pattern of the fragment, as Python's `re` does at the first use of the
pattern: `none` is `re.error` (a dangling or doubled `*` has nothing to repeat),
`some` pairs each atom with its star flag. -/
def parsePat : List Char → Option (List (RAtom × Bool))
  | [] => some []
  | '*' :: _ => none
  | _ :: '*' :: '*' :: _ => none
  | c :: '*' :: rest => (parsePat rest).map (fun p => (mkAtom c, true) :: p)
  | c :: rest => (parsePat rest).map (fun p => (mkAtom c, false) :: p)

/-- Does an atom match one character? (`.` matches anything; a literal matches
case-sensitively, by character equality.) -/
def matchAtom (a : RAtom) (c : Char) : Bool :=
  match a with
  | RAtom.dot => true
  | RAtom.lit l => l == c

/-- Does the compiled pattern match a prefix of the string? (standard star-capable
matcher: a starred atom matches zero or more characters). -/
def matchHere : List (RAtom × Bool) → List Char → Bool
  | [], _ => true
  | (_, false) :: _, [] => false
  | (a, false) :: ps, c :: s => matchAtom a c && matchHere ps s
  | (a, true) :: ps, s =>
      matchHere ps s ||
        (match s with
         | [] => false
         | c :: s2 => matchAtom a c && matchHere ((a, true) :: ps) s2)
termination_by p s => (p.length, s.length)

/-- `re.search(pat, s)`: does the compiled pattern match starting at some position of
`s`?  Python's `re.search` scans positions left to right. -/
def reSearch (p : List (RAtom × Bool)) : List Char → Bool
  | [] => matchHere p []
  | c :: s => matchHere p (c :: s) || reSearch p s

/-- A row of the `ak.stock_info_a_code_name()` table (columns `name` and `code`). -/
structure SrcStock where
  name : String
  code : String
deriving DecidableEq, Repr

/-- The `StockCode` data-transfer record (`{"name", "stock_code"}`) returned by
`get_stock_code`. -/
structure StockCode where
  name : String
  stock_code : String
deriving DecidableEq, Repr

/-- `get_stock_code(name)` (`stocks_common_metrics.py` lines 15–41) applied to the
fetched table: keep the rows whose `name` column matches the pattern under
`re.search` (case-sensitive regex search, not exact match) and build the
`{"name", "stock_code"}` records.  Python compiles the pattern at its first use
inside the list comprehension: with an empty table a malformed pattern is never
used and nothing is raised; with a non-empty table it raises `re.error`, which no
surrounding try/except catches. -/
def getStockCode (source : List SrcStock) (pat : String) : Except String (List StockCode) :=
  if source.isEmpty then .ok []
  else
    match parsePat pat.toList with
    | none => .error ("re.error: invalid pattern " ++ pat)
    | some p =>
        .ok ((source.filter (fun r => reSearch p r.name.toList)).map
          (fun r => ⟨r.name, r.code⟩))

/-- The whole call of `get_stock_code`: `ak.stock_info_a_code_name()` is invoked
first (lines 28–30), before the pattern is ever applied; the first component records
the external calls attempted. -/
def getStockCodeT (fetch : Unit → List SrcStock) (pat : String) :
    List String × Except String (List StockCode) :=
  (["ak.stock_info_a_code_name"], getStockCode (fetch ()) pat)

theorem matchHere_nil (s : List Char) : matchHere [] s = true := by
  cases s <;> simp [matchHere]

theorem reSearch_nil (s : List Char) : reSearch [] s = true := by
  cases s <;> simp [reSearch, matchHere_nil]

/-- C6: with a well-formed pattern, `get_stock_code` returns exactly the records of
the rows whose `name` matches the pattern under case-sensitive regex search — every
returned record's name matches, every matching row is returned — and the empty-string
pattern (which matches everywhere) returns every record of the source. -/
theorem stock_code_regex_filter (source : List SrcStock) (pat : String)
    (p : List (RAtom × Bool)) (hp : parsePat pat.toList = some p) :
    (getStockCode source pat
        = .ok ((source.filter (fun r => reSearch p r.name.toList)).map
            (fun r => ⟨r.name, r.code⟩))
      ∨ source = [])
      ∧ (∀ q ∈ (source.filter (fun r => reSearch p r.name.toList)).map
          (fun r => (⟨r.name, r.code⟩ : StockCode)), reSearch p q.name.toList = true)
      ∧ getStockCode source "" = .ok (source.map (fun r => ⟨r.name, r.code⟩)) := by
  refine ⟨?_, ?_, ?_⟩
  · by_cases hs : source.isEmpty
    · exact Or.inr (List.isEmpty_iff.mp hs)
    · refine Or.inl ?_
      unfold getStockCode
      rw [if_neg hs, hp]
  · intro q hq
    rw [List.mem_map] at hq
    obtain ⟨r, hr, rfl⟩ := hq
    exact (List.mem_filter.mp hr).2
  · by_cases hs : source.isEmpty
    · rw [List.isEmpty_iff.mp hs]
      rfl
    · unfold getStockCode
      have h0 : parsePat ("".toList) = some [] := rfl
      rw [if_neg hs, h0]
      show Except.ok ((source.filter (fun r => reSearch [] r.name.toList)).map
          (fun r => (⟨r.name, r.code⟩ : StockCode))) = _
      rw [List.filter_congr (fun r _ => reSearch_nil r.name.toList), List.filter_true]

/-- A concrete `ak.stock_info_a_code_name()` table with two rows. -/
def src6 : List SrcStock := [⟨"东方明珠", "600637"⟩, ⟨"浦发银行", "600000"⟩]

/-- The compiled form of the pattern `"东方"` in the modelled fragment. -/
def pat6 : List (RAtom × Bool) := [(RAtom.lit '东', false), (RAtom.lit '方', false)]

theorem stock_code_regex_filter_w :
    getStockCode src6 "东方" = .ok [⟨"东方明珠", "600637"⟩]
      ∧ getStockCode src6 "" = .ok [⟨"东方明珠", "600637"⟩, ⟨"浦发银行", "600000"⟩] :=
  ⟨((stock_code_regex_filter src6 "东方" pat6 (by decide)).1.resolve_right
      (by decide)).trans (congrArg Except.ok
        (by simp [src6, pat6, reSearch, matchHere, matchAtom])),
   (stock_code_regex_filter src6 "东方" pat6 (by decide)).2.2⟩

/-- C9: counterexample — `"*"` is malformed regex syntax (`re.error`: nothing to
repeat), yet when the fetched table is empty `get_stock_code` raises no error at all:
the pattern is never used by the list comprehension and the call returns `ok []`;
moreover the external fetch `ak.stock_info_a_code_name()` is attempted
unconditionally before the pattern is first applied, so no malformed pattern is
rejected "without attempting the operation". -/
theorem stock_code_malformed_cex :
    parsePat ("*".toList) = none
      ∧ getStockCodeT (fun _ => []) "*" = (["ak.stock_info_a_code_name"], .ok []) :=
  ⟨by decide, rfl⟩

/-- C9 (amended): for every malformed pattern the external fetch is still attempted
first; when the fetched table is non-empty, `get_stock_code` then raises the
descriptive `re.error`, which surfaces to the caller uncaught (there is no
try/except around the comprehension). -/
theorem stock_code_malformed_raises (fetch : Unit → List SrcStock) (pat : String)
    (hp : parsePat pat.toList = none) (hne : fetch () ≠ []) :
    getStockCodeT fetch pat
      = (["ak.stock_info_a_code_name"], .error ("re.error: invalid pattern " ++ pat)) := by
  unfold getStockCodeT getStockCode
  cases h : fetch () with
  | nil => exact absurd h hne
  | cons a as =>
    rw [if_neg (by simp), hp]

theorem stock_code_malformed_raises_w :
    getStockCodeT (fun _ => src6) "*"
      = (["ak.stock_info_a_code_name"], .error ("re.error: invalid pattern " ++ "*")) :=
  stock_code_malformed_raises (fun _ => src6) "*" (by decide) (by decide)

/-- A news record: title, content, publication time (a day number), url. -/
structure NewsItem where
  title : String
  content : String
  pub_time : Nat
  url : String
deriving DecidableEq, Repr

/-- Modelled from the spec: `News_Report.stock_news` lives in
`mcp-server/utils/news_report.py`, which is not among the provided source files; per
spec §4.3, `start_date` / `end_date` are optional, default to one week before the
current date and to the current date, and the returned records are the stock's news
whose publication time lies inside the resulting range.  `today` is the current date
and `src` the per-stock article feed. -/
def newsStockNews (today : Nat) (src : String → List NewsItem) (stock_code : String)
    (start_date end_date : Option Nat) : List NewsItem :=
  let s := start_date.getD (today - 7)
  let e := end_date.getD today
  (src stock_code).filter (fun it => decide (s ≤ it.pub_time) && decide (it.pub_time ≤ e))

/-- Modelled from the spec: `News_Report.financial_news`, the market-wide analogue of
`News_Report.stock_news`, with the same optional dates and defaults. -/
def newsFinancialNews (today : Nat) (src : List NewsItem)
    (start_date end_date : Option Nat) : List NewsItem :=
  let s := start_date.getD (today - 7)
  let e := end_date.getD today
  src.filter (fun it => decide (s ≤ it.pub_time) && decide (it.pub_time ≤ e))

/-- The `stock_news` MCP tool (`fs_server.py` lines 226–246).  Its body is
`return news_report.stock_news(stock_code)`: the `start_date` and `end_date`
parameters it declares and documents are NOT forwarded, so the callee always runs
with its defaults. -/
def fsStockNews (today : Nat) (src : String → List NewsItem) (stock_code : String)
    (start_date end_date : Option Nat) : List NewsItem :=
  newsStockNews today src stock_code none none

/-- The `financial_news` MCP tool (`fs_server.py` lines 249–266), whose body is
`return news_report.financial_news(start_date, end_date)`: both dates forwarded. -/
def fsFinancialNews (today : Nat) (src : List NewsItem)
    (start_date end_date : Option Nat) : List NewsItem :=
  newsFinancialNews today src start_date end_date

/-- A one-article feed for stock `000001`, published on day 50. -/
def newsFeed : String → List NewsItem := fun c =>
  if c = "000001" then [⟨"t", "c", 50, "u"⟩] else []

/-- C5: on day 100, a caller passing the explicit range `[40, 60]` to the
`stock_news` tool gets `[]` although the feed holds an article published on day 50
inside that range — `fs_server.stock_news` drops its date arguments and the callee
runs with the default range `[93, 100]` — while the same range passed to the
spec-modelled `News_Report.stock_news` (and to the `financial_news` tool, which does
forward its dates) returns the article. -/
theorem stock_news_drops_dates :
    fsStockNews 100 newsFeed "000001" (some 40) (some 60) = []
      ∧ newsStockNews 100 newsFeed "000001" (some 40) (some 60) = [⟨"t", "c", 50, "u"⟩]
      ∧ fsFinancialNews 100 [⟨"t", "c", 50, "u"⟩] (some 40) (some 60)
        = [⟨"t", "c", 50, "u"⟩] :=
  ⟨by decide, by decide, by decide⟩
